import Mathlib

/-! Verification of the calendar feed ingestion and recurrence-expansion engine
    (ICS parser, upcoming-window filter, active-event lookup) of the
    transcriber application.

    The TypeScript source is embedded shallowly:
    * a JavaScript `Date` is modelled as an `Int` count of milliseconds since the
      Unix epoch (UTC), together with an ambient fixed device offset `tz` in
      minutes east of UTC (daylight-saving transitions are not modelled);
    * an invalid date (`NaN` timestamp) is modelled as `none` in `Option Int`;
    * strings are Lean `String`s; the parser scans their character lists.

    All recursive definitions are structural (fuel-indexed where the source
    loop is a `while`), so every definition evaluates by `decide`/`rfl`. -/

namespace TranscribeCal

/-! ### Gregorian civil-date arithmetic (Hinnant's algorithms)

    These model the calendar mathematics inside the JavaScript `Date` object:
    conversion between a day number (days since 1970-01-01) and a civil
    triple `(year, month 1..12, day)`. -/

/-- Number of days since 1970-01-01 of the civil date `(y, m, d)`, month `1..12`;
    the day `d` may lie outside the month and rolls over, exactly as the
    JavaScript `Date` constructor normalises out-of-range day values. -/
def daysFromCivil (y m d : Int) : Int :=
  let yy := y - (if m ≤ 2 then 1 else 0)
  let era := yy / 400
  let yoe := yy - era * 400
  let mp := (m + 9) % 12
  era * 146097 + (365 * yoe + yoe / 4 - yoe / 100) + (153 * mp + 2) / 5 + d - 1 - 719468

/-- Civil date `(y, m, d)` of a count of days since 1970-01-01. -/
def civilFromDays (z : Int) : Int × Int × Int :=
  let z' := z + 719468
  let era := z' / 146097
  let doe := z' - era * 146097
  let yoe := (doe - doe / 1460 + doe / 36524 - doe / 146096) / 365
  let doy := doe - (365 * yoe + yoe / 4 - yoe / 100)
  let mp := (5 * doy + 2) / 153
  let d := doy - (153 * mp + 2) / 5 + 1
  let m := mp + (if mp < 10 then 3 else -9)
  (yoe + era * 400 + (if m ≤ 2 then 1 else 0), m, d)

/-- Year-of-era extraction used inside `civilFromDays`. -/
def yoeOf (x : Int) : Int := (x - x / 1460 + x / 36524 - x / 146096) / 365

/-- First day-of-era of a year-of-era (valid for `0 ≤ y ≤ 399`). -/
def startOfYoe (y : Int) : Int := 365 * y + y / 4 - y / 100

/-- Boundary facts checked by enumeration of the 400 year starts of one era. -/
def yoeBoundaryCheck (k : Nat) : Bool :=
  if 399 < k then true else
  let ki : Int := k
  decide (yoeOf (startOfYoe ki) = ki) &&
  (decide (k = 0) || decide (yoeOf (startOfYoe ki - 1) = ki - 1))

/-- Balanced conjunction of `yoeBoundaryCheck` over `[lo, lo + 2^d)`. -/
def boundaryTree : Nat → Nat → Bool
  | 0, lo => yoeBoundaryCheck lo
  | d+1, lo => boundaryTree d lo && boundaryTree d (lo + 2^d)

/-! ### The JavaScript `Date` model

    An instant is `t : Int`, milliseconds since the Unix epoch in UTC.
    The device time zone is a fixed offset `tz` in minutes east of UTC; local
    wall-clock fields of `t` are the UTC fields of `t + tz * 60000`. -/

/-- Local day number (days since epoch, in the device zone) of an instant. -/
def localDayNumber (tz t : Int) : Int := (t + tz * 60000) / 86400000

/-- Milliseconds elapsed since local midnight. -/
def localMsOfDay (tz t : Int) : Int := (t + tz * 60000) % 86400000

/-- Local civil date `(year, month 1..12, day)` of an instant. -/
def localCivil (tz t : Int) : Int × Int × Int := civilFromDays (localDayNumber tz t)

/-- Model of `Date.prototype.getFullYear`. -/
def getFullYear (tz t : Int) : Int := (localCivil tz t).1

/-- Model of `Date.prototype.getMonth` (0-based month). -/
def getMonth (tz t : Int) : Int := (localCivil tz t).2.1 - 1

/-- Model of `Date.prototype.getDate` (day of month). -/
def getDate (tz t : Int) : Int := (localCivil tz t).2.2

/-- Model of `Date.prototype.getHours`. -/
def getHours (tz t : Int) : Int := localMsOfDay tz t / 3600000

/-- Model of `Date.prototype.getMinutes`. -/
def getMinutes (tz t : Int) : Int := localMsOfDay tz t % 3600000 / 60000

/-- Model of `Date.prototype.getDay` (0 = Sunday); 1970-01-01 was a Thursday. -/
def getDay (tz t : Int) : Int := (localDayNumber tz t + 4) % 7

/-- Instant of the local fields `(y, mon 0-based, d, h, mi, s)`, with the same
    normalisation of out-of-range fields the JavaScript `Date` performs, but
    without the two-digit-year rule (this is the `setFullYear`-style encoding). -/
def msFromLocalFields (tz y mon d h mi s : Int) : Int :=
  daysFromCivil (y + mon / 12) (mon % 12 + 1) d * 86400000 +
    h * 3600000 + mi * 60000 + s * 1000 - tz * 60000

/-- Model of the `new Date(y, mon, d, h, mi, s)` constructor: years `0..99`
    are interpreted as `1900..1999`. -/
def jsMakeDate (tz y mon d h mi s : Int) : Int :=
  msFromLocalFields tz (if 0 ≤ y ∧ y ≤ 99 then y + 1900 else y) mon d h mi s

/-- Model of `d.setDate(n)`: replace the local day-of-month, keeping the local
    year, month and time of day. -/
def jsSetDate (tz t n : Int) : Int :=
  daysFromCivil (localCivil tz t).1 (localCivil tz t).2.1 n * 86400000 +
    localMsOfDay tz t - tz * 60000

/-- Model of `d.setMonth(mon)`: replace the local (0-based) month, keeping the
    local year, day-of-month and time of day, with JavaScript's normalisation. -/
def jsSetMonth (tz t mon : Int) : Int :=
  daysFromCivil ((localCivil tz t).1 + mon / 12) (mon % 12 + 1) (localCivil tz t).2.2 *
      86400000 + localMsOfDay tz t - tz * 60000

/-- Model of `d.setFullYear(y)`: replace the local year, keeping the local
    month, day-of-month and time of day. -/
def jsSetFullYear (tz t y : Int) : Int :=
  daysFromCivil y (localCivil tz t).2.1 (localCivil tz t).2.2 * 86400000 +
    localMsOfDay tz t - tz * 60000

/-! ### Decimal rendering

    Models JavaScript number-to-string conversion for the integers that occur
    in the engine (all far below the range where JavaScript switches to
    exponential notation). -/

/-- Decimal digit character for `n < 10`. -/
def digitChar (n : Nat) : Char := Char.ofNat (48 + n)

/-- Numeric value of a decimal digit character. -/
def digitVal (c : Char) : Nat := c.toNat - 48

/-- Least-significant-first decimal digits of `n`; any `fuel > n` is enough. -/
def natDigitsRev : Nat → Nat → List Char
  | 0, _ => []
  | fuel+1, n => if n < 10 then [digitChar n] else digitChar (n % 10) :: natDigitsRev fuel (n / 10)

/-- Decimal rendering of a natural number. -/
def natRepr (n : Nat) : String := ⟨(natDigitsRev (n+1) n).reverse⟩

/-- Decimal rendering of an integer (sign followed by digits). -/
def intRepr (t : Int) : String := if t < 0 then "-" ++ natRepr (-t).toNat else natRepr t.toNat

/-- Value of a least-significant-first digit list. -/
def valRev : List Char → Nat
  | [] => 0
  | c :: rest => digitVal c + 10 * valRev rest

/-! ### String utilities of the parser -/

/-- Whitespace characters relevant to `String.prototype.trim` on ICS content. -/
def jsWhitespace (c : Char) : Bool := c = ' ' || c = '\t' || c = '\n' || c = '\r'

/-- Model of `String.prototype.trim`. -/
def jsTrim (l : List Char) : List Char :=
  ((l.dropWhile jsWhitespace).reverse.dropWhile jsWhitespace).reverse

/-- Whether the first list is an initial segment of the second. -/
def leadsWith : List Char → List Char → Bool
  | [], _ => true
  | _ :: _, [] => false
  | a :: as, b :: bs => a == b && leadsWith as bs

/-- Caseless variant of `leadsWith` (for the case-insensitive RRULE patterns). -/
def leadsWithCI : List Char → List Char → Bool
  | [], _ => true
  | _ :: _, [] => false
  | a :: as, b :: bs => a.toUpper == b.toUpper && leadsWithCI as bs

/-- Model of `String.prototype.split` with a one-character separator. -/
def splitOnChar (sep : Char) : List Char → List (List Char)
  | [] => [[]]
  | c :: rest =>
      if c = sep then [] :: splitOnChar sep rest
      else
        match splitOnChar sep rest with
        | [] => [[c]]
        | h :: t => (c :: h) :: t

/-- Remove the first occurrence of a character (model of `replace(c, '')`). -/
def removeFirst (x : Char) : List Char → List Char
  | [] => []
  | c :: rest => if c = x then rest else c :: removeFirst x rest

/-- Model of `String.prototype.split` with a multi-character separator;
    `fuel` bounds the scan and `length + 1` is always enough. -/
def splitOnListAux (sep : List Char) : Nat → List Char → List Char → List (List Char)
  | 0, acc, s => [acc.reverse ++ s]
  | fuel+1, acc, s =>
      if leadsWith sep s then acc.reverse :: splitOnListAux sep fuel [] (s.drop sep.length)
      else
        match s with
        | [] => [acc.reverse]
        | c :: rest => splitOnListAux sep fuel (c :: acc) rest

/-- Model of `String.prototype.split` with a (nonempty) string separator. -/
def splitOnList (sep : List Char) (s : List Char) : List (List Char) :=
  splitOnListAux sep (s.length + 1) [] s

/-- Model of the global replace of `/\r?\n[ \t]/` by the empty string:
    RFC 5545 line unfolding. -/
def unfoldChars : List Char → List Char
  | [] => []
  | '\r' :: '\n' :: c :: rest =>
      if c = ' ' ∨ c = '\t' then unfoldChars rest
      else '\r' :: '\n' :: unfoldChars (c :: rest)
  | '\n' :: c :: rest =>
      if c = ' ' ∨ c = '\t' then unfoldChars rest
      else '\n' :: unfoldChars (c :: rest)
  | c :: rest => c :: unfoldChars rest

/-- Numeric value of a most-significant-first decimal digit list. -/
def digitsToNat (l : List Char) : Nat := l.foldl (fun acc c => acc * 10 + digitVal c) 0

/-- Model of JavaScript `parseInt` on the token shapes occurring here:
    optional leading whitespace and sign, then decimal digits; `none` is `NaN`. -/
def jsParseInt (s : List Char) : Option Int :=
  let t := s.dropWhile jsWhitespace
  match t with
  | '-' :: rest =>
      if rest.takeWhile Char.isDigit = [] then none
      else some (-(digitsToNat (rest.takeWhile Char.isDigit) : Int))
  | '+' :: rest =>
      if rest.takeWhile Char.isDigit = [] then none
      else some ((digitsToNat (rest.takeWhile Char.isDigit) : Int))
  | _ =>
      if t.takeWhile Char.isDigit = [] then none
      else some ((digitsToNat (t.takeWhile Char.isDigit) : Int))

/-! ### The date/time decoder -/

/-- Model of `parseIcsDate` (calendar service, lines 51-68): decoder for ICS
    date tokens such as `20250123T101000`, `20250123T101000Z`, `20250123`.
    Input shorter than 8 characters yields the current timestamp `now`;
    `none` models an Invalid Date (a `NaN` year, month or day reaching the
    `Date` constructor). -/
def parseIcsDate (tz now : Int) (dateStr : String) : Option Int :=
  if dateStr.length < 8 then some now
  else
    let s := dateStr.data
    let year := jsParseInt (s.take 4)
    let month := jsParseInt ((s.drop 4).take 2)
    let day := jsParseInt ((s.drop 6).take 2)
    if s.contains 'T' then
      let timePart := removeFirst 'Z' ((splitOnChar 'T' s).getD 1 [])
      let hour := (jsParseInt (timePart.take 2)).getD 0
      let minute := (jsParseInt ((timePart.drop 2).take 2)).getD 0
      let second := (jsParseInt ((timePart.drop 4).take 2)).getD 0
      match year, month, day with
      | some y, some mo, some d => some (jsMakeDate tz y (mo - 1) d hour minute second)
      | _, _, _ => none
    else
      match year, month, day with
      | some y, some mo, some d => some (jsMakeDate tz y (mo - 1) d 0 0 0)
      | _, _, _ => none

/-! ### Property scanners

    These model the specific regular expressions of `parseICS`:
    `NAME(?:;[^:]*)?:(.*)`, `NAME(?:;[^:]*)?:(\d{8}T\d{6}Z?|\d{8})`, and the
    case-insensitive `FREQ=([^;]+)`, `COUNT=(\d+)`, `UNTIL=(...)`,
    `INTERVAL=(\d+)`, with JavaScript's leftmost-match scanning. -/

/-- Match the fragment `(?:;[^:]*)?:` at the start of the text (the optional
    parameter part before a property value), returning the text after the colon. -/
def paramColon : List Char → Option (List Char)
  | ':' :: rest => some rest
  | ';' :: rest =>
      match rest.dropWhile (fun c => c != ':') with
      | ':' :: rest2 => some rest2
      | _ => none
  | _ => none

/-- Capture of `(.*)`: the rest of the current line. -/
def captureLine (l : List Char) : Option (List Char) :=
  some (l.takeWhile (fun c => c != '\n' && c != '\r'))

/-- Match the alternation `(\d{8}T\d{6}Z?|\d{8})` at the start of the text. -/
def dateToken (l : List Char) : Option (List Char) :=
  let d8 := l.take 8
  if d8.length = 8 ∧ d8.all Char.isDigit then
    match l.drop 8 with
    | 'T' :: rest =>
        let d6 := rest.take 6
        if d6.length = 6 ∧ d6.all Char.isDigit then
          match rest.drop 6 with
          | 'Z' :: _ => some (d8 ++ 'T' :: (d6 ++ ['Z']))
          | _ => some (d8 ++ 'T' :: d6)
        else some d8
    | _ => some d8
  else none

/-- Scan left to right for the first position where the property name, the
    `(?:;[^:]*)?:` fragment and the value pattern all match. -/
def scanProp (name : List Char) (valueFn : List Char → Option (List Char)) :
    List Char → Option (List Char)
  | [] => none
  | c :: rest =>
      if leadsWith name (c :: rest) then
        match (paramColon ((c :: rest).drop name.length)).bind valueFn with
        | some v => some v
        | none => scanProp name valueFn rest
      else scanProp name valueFn rest

/-- Caseless scan for `PAT` immediately followed by the value pattern (for the
    `/i`-flagged RRULE part patterns, which have no parameter fragment). -/
def scanPlainCI (pat : List Char) (valueFn : List Char → Option (List Char)) :
    List Char → Option (List Char)
  | [] => none
  | c :: rest =>
      if leadsWithCI pat (c :: rest) then
        match valueFn ((c :: rest).drop pat.length) with
        | some v => some v
        | none => scanPlainCI pat valueFn rest
      else scanPlainCI pat valueFn rest

/-- Capture of `([^;]+)`. -/
def nonSemiValue (l : List Char) : Option (List Char) :=
  let v := l.takeWhile (fun c => c != ';')
  if v = [] then none else some v

/-- Capture of `(\d+)`. -/
def digitsValue (l : List Char) : Option (List Char) :=
  let v := l.takeWhile Char.isDigit
  if v = [] then none else some v

/-! ### The event model and the expansion engine -/

/-- The `CalendarEvent` interface of the application's type declarations. -/
structure CalendarEvent where
  id : String
  title : String
  startTime : String
  endTime : String
  days : List Int
  date : Option String
  location : Option String
  isExternal : Option Bool
deriving DecidableEq, Repr

/-- Left-pad with zeros to width `w` (model of `padStart(w, '0')`). -/
def padZeros (w : Nat) (s : String) : String :=
  ⟨List.replicate (w - s.data.length) '0' ++ s.data⟩

/-- Two-digit rendering used for the `HH:MM` fields. -/
def pad2 (n : Int) : String := padZeros 2 (intRepr n)

/-- Date part of `Date.prototype.toISOString` (the text before the `T`):
    UTC-based `YYYY-MM-DD`, with the expanded form outside years `0..9999`. -/
def isoDateString (t : Int) : String :=
  let c := civilFromDays (t / 86400000)
  let ys :=
    if 0 ≤ c.1 ∧ c.1 ≤ 9999 then padZeros 4 (intRepr c.1)
    else if c.1 < 0 then "-" ++ padZeros 6 (intRepr (-c.1))
    else "+" ++ padZeros 6 (intRepr c.1)
  ys ++ "-" ++ pad2 c.2.1 ++ "-" ++ pad2 c.2.2

/-- The occurrence id written by `addOccurrence`:
    `ics-<block>-<occurrence>-<start ms>`. -/
def mkId (blockIdx idx : Nat) (occStart : Int) : String :=
  "ics-" ++ natRepr blockIdx ++ "-" ++ natRepr idx ++ "-" ++ intRepr occStart

/-- Model of the `addOccurrence` closure of `parseICS` (lines 108-124): emit the
    occurrence unless its end instant is strictly before `now`. -/
def addOccurrence (tz now : Int) (blockIdx idx : Nat) (title location : String)
    (duration occStart : Int) : Option CalendarEvent :=
  let occEnd := occStart + duration
  if occEnd < now then none
  else some {
    id := mkId blockIdx idx occStart
    title := title
    startTime := pad2 (getHours tz occStart) ++ ":" ++ pad2 (getMinutes tz occStart)
    endTime := pad2 (getHours tz occEnd) ++ ":" ++ pad2 (getMinutes tz occEnd)
    days := [getDay tz occStart]
    date := some (isoDateString occStart)
    location := some location
    isExternal := some true }

/-- One advance of `currentStart` by the recurrence frequency (lines 145-155);
    `none` models the `else break` on an unrecognised frequency. -/
def advanceStart (tz : Int) (freq : String) (interval t : Int) : Option Int :=
  if freq = "DAILY" then some (jsSetDate tz t (getDate tz t + interval))
  else if freq = "WEEKLY" then some (jsSetDate tz t (getDate tz t + 7 * interval))
  else if freq = "MONTHLY" then some (jsSetMonth tz t (getMonth tz t + interval))
  else if freq = "YEARLY" then some (jsSetFullYear tz t (getFullYear tz t + interval))
  else none

/-- The recurrence `while` loop of `parseICS` (lines 139-160), fuel-indexed:
    the result is the list of `(occurrence start, iteration index)` pairs passed
    to `addOccurrence`; `none` models fuel exhaustion (it never occurs with
    fuel 502, see `expandLoop_fuel_sufficient`). `count = none` is `Infinity`. -/
def expandLoop (tz : Int) (freq : String) (interval : Int) (count : Option Nat)
    (untilT limit : Int) : Nat → Int → Nat → Option (List (Int × Nat))
  | 0, _, _ => none
  | fuel+1, currentStart, iterations =>
      if (match count with
          | none => true
          | some c => decide (iterations < c)) &&
         decide (currentStart ≤ untilT) && decide (currentStart ≤ limit) then
        match advanceStart tz freq interval currentStart with
        | none => some [(currentStart, iterations)]
        | some next =>
            if iterations + 1 > 500 then some [(currentStart, iterations)]
            else
              match expandLoop tz freq interval count untilT limit fuel next (iterations + 1) with
              | none => none
              | some rest => some ((currentStart, iterations) :: rest)
      else some []

/-- The occurrences of a recurring block, with the loop's own 501-pass bound
    supplying the fuel. -/
def expandRecurrence (tz : Int) (freq : String) (interval : Int) (count : Option Nat)
    (untilT limit start : Int) : List (Int × Nat) :=
  (expandLoop tz freq interval count untilT limit 502 start 0).getD []

/-- The 60-day expansion ceiling: `expansionLimit.setDate(now.getDate() + 60)`
    applied to a fresh `new Date()`. -/
def expansionLimitOf (tz now : Int) : Int := jsSetDate tz now (getDate tz now + 60)

/-- Events contributed by one VEVENT block: the body of the `forEach` of
    `parseICS` (lines 87-163). The `none` fallbacks after `parseIcsDate` are
    unreachable because the matched tokens are all digits of length at least 8. -/
def blockEvents (tz now limit : Int) (blockIdx : Nat) (block : List Char) :
    List CalendarEvent :=
  match scanProp "SUMMARY".data captureLine block,
        scanProp "DTSTART".data dateToken block with
  | some summaryCap, some dtStartTok =>
      let title := (jsTrim summaryCap).asString
      let location := match scanProp "LOCATION".data captureLine block with
        | some cap => (jsTrim cap).asString
        | none => "No location"
      (match parseIcsDate tz now dtStartTok.asString with
      | none => []
      | some startBase =>
          let duration := match (scanProp "DTEND".data dateToken block).bind
              (fun tok => parseIcsDate tz now tok.asString) with
            | some endBase => endBase - startBase
            | none => 3600000
          match scanProp "RRULE".data captureLine block with
          | none => (addOccurrence tz now blockIdx 0 title location duration startBase).toList
          | some rruleCap =>
              let rrule := jsTrim rruleCap
              let freq := match scanPlainCI "FREQ=".data nonSemiValue rrule with
                | some v => (v.map Char.toUpper).asString
                | none => "WEEKLY"
              let count := (scanPlainCI "COUNT=".data digitsValue rrule).map digitsToNat
              let untilT := match (scanPlainCI "UNTIL=".data dateToken rrule).bind
                  (fun tok => parseIcsDate tz now tok.asString) with
                | some u => u
                | none => limit
              let interval : Int := match scanPlainCI "INTERVAL=".data digitsValue rrule with
                | some ds => (digitsToNat ds : Int)
                | none => 1
              (expandRecurrence tz freq interval count untilT limit startBase).filterMap
                (fun p => addOccurrence tz now blockIdx p.2 title location duration p.1))
  | _, _ => []

/-- Lexicographic three-way comparison of character lists: adequate model of
    `localeCompare` on the ASCII date and time strings compared here. -/
def listCmp : List Char → List Char → Int
  | [], [] => 0
  | [], _ :: _ => -1
  | _ :: _, [] => 1
  | a :: as, b :: bs =>
      if a.toNat < b.toNat then -1 else if b.toNat < a.toNat then 1 else listCmp as bs

/-- The sort comparator of `parseICS` (lines 165-168). -/
def eventCmp (a b : CalendarEvent) : Int :=
  if a.date ≠ b.date then listCmp (a.date.getD "").data (b.date.getD "").data
  else listCmp a.startTime.data b.startTime.data

/-- Stable insertion: an element moves past exactly the strictly smaller ones. -/
def insertEvent (x : CalendarEvent) : List CalendarEvent → List CalendarEvent
  | [] => [x]
  | y :: ys => if eventCmp y x < 0 then y :: insertEvent x ys else x :: y :: ys

/-- Stable sort by `eventCmp` (model of the stable `Array.prototype.sort`). -/
def sortEvents : List CalendarEvent → List CalendarEvent
  | [] => []
  | x :: xs => insertEvent x (sortEvents xs)

/-- Model of `parseICS` (calendar service, lines 74-169). -/
def parseICS (tz now : Int) (icsData : String) : List CalendarEvent :=
  let unfolded := unfoldChars icsData.data
  let blocks := (splitOnList "BEGIN:VEVENT".data unfolded).drop 1
  let limit := expansionLimitOf tz now
  sortEvents (blocks.enum.flatMap (fun p => blockEvents tz now limit p.1 p.2))

/-! ### The upcoming-window filter and active-event lookup -/

/-- Model of JavaScript `Number()` coercion on the integer-shaped strings the
    filters split out of `HH:MM` and `YYYY-MM-DD` fields; `none` is `NaN`
    (non-integer numeric literals do not occur in this domain and are also
    mapped to `none`). -/
def jsNumber (l : List Char) : Option Int :=
  match jsTrim l with
  | [] => some 0
  | '-' :: ds =>
      if ds ≠ [] ∧ ds.all Char.isDigit then some (-(digitsToNat ds : Int)) else none
  | '+' :: ds =>
      if ds ≠ [] ∧ ds.all Char.isDigit then some ((digitsToNat ds : Int)) else none
  | ds => if ds.all Char.isDigit then some ((digitsToNat ds : Int)) else none

/-- End instant a prune decision is based on, derived from the event's `date`
    and `endTime` fields: `new Date(y, m - 1, d, endH, endM)`; `none` models an
    Invalid Date from any `NaN` component. -/
def pruneEndInstant (tz : Int) (e : CalendarEvent) : Option Int :=
  match e.date with
  | none => none
  | some d =>
      let ends := (splitOnChar ':' e.endTime.data).map jsNumber
      let dates := (splitOnChar '-' d.data).map jsNumber
      match ends.getD 0 none, ends.getD 1 none,
            dates.getD 0 none, dates.getD 1 none, dates.getD 2 none with
      | some endH, some endM, some y, some mo, some dd =>
          some (jsMakeDate tz y (mo - 1) dd endH endM 0)
      | _, _, _, _, _ => none

/-- Model of `filterUpcomingEvents` (calendar service, lines 171-180). -/
def filterUpcomingEvents (tz now : Int) (schedule : List CalendarEvent) :
    List CalendarEvent :=
  schedule.filter fun event =>
    if event.date = none ∨ event.date = some "" then true
    else
      match pruneEndInstant tz event with
      | some endMs => decide (endMs ≥ now)
      | none => false

/-- Wall-clock minutes of an `HH:MM` field via `split(':').map(Number)`. -/
def activeMinutes (s : String) : Option Int :=
  let parts := (splitOnChar ':' s.data).map jsNumber
  match parts.getD 0 none, parts.getD 1 none with
  | some h, some m => some (h * 60 + m)
  | _, _ => none

/-- Model of `findActiveEvent` (calendar service, lines 194-208). -/
def findActiveEvent (tz now : Int) (schedule : List CalendarEvent) :
    Option CalendarEvent :=
  let todayIso := isoDateString now
  let nowMins := getHours tz now * 60 + getMinutes tz now
  schedule.find? fun event =>
    if event.date ≠ some todayIso then false
    else
      match activeMinutes event.startTime, activeMinutes event.endTime with
      | some s, some e => decide (s ≤ nowMins) && decide (nowMins ≤ e)
      | _, _ => false

/-! ### Concrete instances used by the claim theorems -/

/-- Sample feed of the spec's round-trip testable property. -/
def sampleICS : String :=
  "BEGIN:VCALENDAR\nBEGIN:VEVENT\nSUMMARY:Standup\nDTSTART:20990101T100000\nDTEND:20990101T110000\nEND:VEVENT\nEND:VCALENDAR"

/-- The single event the sample feed expands to on a UTC device (offset 0). -/
def standupEvent : CalendarEvent :=
  { id := "ics-0-0-4070944800000", title := "Standup", startTime := "10:00",
    endTime := "11:00", days := [4], date := some "2099-01-01",
    location := some "No location", isExternal := some true }

/-- A parse instant in 2025, well before the sample event. -/
def refNow : Int := 1760000000000

/-- Event for the prune boundary: it ends at noon local time on 2025-06-15. -/
def meetingEvent : CalendarEvent :=
  { id := "e1", title := "Meeting", startTime := "11:00", endTime := "12:00",
    days := [0], date := some "2025-06-15", location := none, isExternal := none }

/-- Noon of 2025-06-15 on a UTC device. -/
def noonInstant : Int := jsMakeDate 0 2025 5 15 12 0 0

/-- Earlier of two touching events for the find-active boundary check. -/
def morningEventA : CalendarEvent :=
  { id := "a", title := "First", startTime := "09:00", endTime := "10:00",
    days := [0], date := some "2025-06-15", location := none, isExternal := none }

/-- Later of two touching events for the find-active boundary check. -/
def morningEventB : CalendarEvent :=
  { id := "b", title := "Second", startTime := "10:00", endTime := "11:00",
    days := [0], date := some "2025-06-15", location := none, isExternal := none }

/-- Ten o'clock of 2025-06-15 on a UTC device. -/
def tenOClock : Int := jsMakeDate 0 2025 5 15 10 0 0

/-- Active-event predicate as the spec words it: the date equals the current
    date string and the `[startTime, endTime]` wall-clock window contains the
    current time, endpoints included (at minute granularity, as the code
    compares times). -/
def isActiveAt (tz now : Int) (e : CalendarEvent) : Bool :=
  decide (e.date = some (isoDateString now)) &&
    match activeMinutes e.startTime, activeMinutes e.endTime with
    | some s, some en =>
        decide (s ≤ getHours tz now * 60 + getMinutes tz now) &&
        decide (getHours tz now * 60 + getMinutes tz now ≤ en)
    | _, _ => false

/-! ### Theorems -/

theorem yoeOf_mono {x y : Int} (h : x ≤ y) : yoeOf x ≤ yoeOf y := by
  unfold yoeOf
  have hx : x / 146096 = (x / 36524) / 4 := by omega
  have hy : y / 146096 = (y / 36524) / 4 := by omega
  have : x - x / 1460 + x / 36524 - x / 146096 ≤ y - y / 1460 + y / 36524 - y / 146096 := by
    omega
  omega

set_option maxHeartbeats 1000000 in
theorem boundaryTree_run : boundaryTree 9 0 = true := by rfl

theorem boundaryTree_elim :
    ∀ d lo i : Nat, i < 2^d → boundaryTree d lo = true → yoeBoundaryCheck (lo + i) = true := by
  intro d
  induction d with
  | zero =>
      intro lo i hi h
      interval_cases i
      · simpa using h
  | succ d ih =>
      intro lo i hi h
      simp only [boundaryTree, Bool.and_eq_true] at h
      by_cases hc : i < 2^d
      · exact ih lo i hc h.1
      · have h2 : i - 2^d < 2^d := by
          have := Nat.pow_succ 2 d
          omega
        have := ih (lo + 2^d) (i - 2^d) h2 h.2
        have harith : lo + 2^d + (i - 2^d) = lo + i := by omega
        rwa [harith] at this

theorem yoe_boundary (k : Nat) (hk : k ≤ 399) :
    yoeOf (startOfYoe (k : Int)) = (k : Int) ∧
    (1 ≤ k → yoeOf (startOfYoe (k : Int) - 1) = (k : Int) - 1) := by
  have h := boundaryTree_elim 9 0 k (by omega) boundaryTree_run
  rw [Nat.zero_add] at h
  unfold yoeBoundaryCheck at h
  rw [if_neg (by omega)] at h
  simp only [Bool.and_eq_true, Bool.or_eq_true, decide_eq_true_eq] at h
  refine ⟨h.1, fun h1 => ?_⟩
  rcases h.2 with h2 | h2
  · omega
  · exact h2

theorem yoeOf_last : yoeOf 146096 = 399 := by decide

/-- Main bounds: for a day-of-era in `[0, 146097)`, the extracted year-of-era is in
    `[0, 399]` and the day-of-year offset is in `[0, 365]`. -/
theorem doy_base (doe : Int) (h0 : 0 ≤ doe) (h1 : doe < 146097) :
    0 ≤ yoeOf doe ∧ yoeOf doe ≤ 399 ∧
    startOfYoe (yoeOf doe) ≤ doe ∧ doe - startOfYoe (yoeOf doe) ≤ 365 := by
  have hlow : (0:Int) ≤ yoeOf doe := by
    have h00 := (yoe_boundary 0 (by norm_num)).1
    have hs0 : startOfYoe ((0:Nat) : Int) = 0 := by unfold startOfYoe; norm_num
    rw [hs0] at h00
    have hm := yoeOf_mono h0
    simp only [Nat.cast_zero] at h00
    omega
  have hhigh : yoeOf doe ≤ 399 := by
    have hm := yoeOf_mono (show doe ≤ 146096 by omega)
    rw [yoeOf_last] at hm
    exact hm
  have hge : startOfYoe (yoeOf doe) ≤ doe := by
    by_contra hlt
    push_neg at hlt
    rcases eq_or_lt_of_le hlow with hz | hpos
    · rw [← hz] at hlt
      unfold startOfYoe at hlt
      norm_num at hlt
      omega
    · have hkn : ((yoeOf doe).toNat : Int) = yoeOf doe := by omega
      have hkb := (yoe_boundary (yoeOf doe).toNat (by omega)).2 (by omega)
      rw [hkn] at hkb
      have hm := yoeOf_mono (show doe ≤ startOfYoe (yoeOf doe) - 1 by omega)
      rw [hkb] at hm
      omega
  have hlt2 : doe - startOfYoe (yoeOf doe) ≤ 365 := by
    rcases eq_or_lt_of_le hhigh with h399 | hlt399
    · rw [h399]
      have : startOfYoe 399 = 145731 := by decide
      omega
    · by_contra hbig
      push_neg at hbig
      have hkn : (((yoeOf doe) + 1).toNat : Int) = yoeOf doe + 1 := by omega
      have hkb := (yoe_boundary ((yoeOf doe) + 1).toNat (by omega)).1
      rw [hkn] at hkb
      have hlen : startOfYoe (yoeOf doe + 1) ≤ startOfYoe (yoeOf doe) + 366 := by
        unfold startOfYoe
        omega
      have hm := yoeOf_mono (show startOfYoe (yoeOf doe + 1) ≤ doe by omega)
      rw [hkb] at hm
      omega
  exact ⟨hlow, hhigh, hge, hlt2⟩

/-- Arithmetic core of the decode/re-encode cancellation, phrased over plain variables. -/
theorem recompose_arith (era doe yoe doy mp d m y z : Int)
    (hyoe0 : 0 ≤ yoe) (hyoe1 : yoe ≤ 399)
    (hdoy : doy = doe - (365 * yoe + yoe / 4 - yoe / 100))
    (hdoy0 : 0 ≤ doy) (hdoy1 : doy ≤ 365)
    (hmp : mp = (5 * doy + 2) / 153)
    (hd : d = doy - (153 * mp + 2) / 5 + 1)
    (hm : m = mp + (if mp < 10 then 3 else -9))
    (hy : y = yoe + era * 400 + (if m ≤ 2 then 1 else 0))
    (hz : z = era * 146097 + doe - 719468) :
    daysFromCivil y m d = z := by
  simp only [daysFromCivil]
  split_ifs at hm hy ⊢
  · omega
  · have hY : y - 1 - (y - 1) / 400 * 400 = yoe := by omega
    have hj : (y - 1) / 400 = era := by omega
    have hmod : (m + 9) % 12 = mp := by omega
    rw [hY, hj, hmod]
    omega
  · have hY : y - 0 - (y - 0) / 400 * 400 = yoe := by omega
    have hj : (y - 0) / 400 = era := by omega
    have hmod : (m + 9) % 12 = mp := by omega
    rw [hY, hj, hmod]
    omega
  · omega

/-- Re-encoding the civil date extracted from a day count gives back the day count. -/
theorem daysFromCivil_civilFromDays (z y m d : Int) (h : civilFromDays z = (y, m, d)) :
    daysFromCivil y m d = z := by
  simp only [civilFromDays, Prod.mk.injEq] at h
  obtain ⟨hy, hm, hd⟩ := h
  rw [hm] at hy
  have hb := doy_base (z + 719468 - (z + 719468) / 146097 * 146097) (by omega) (by omega)
  simp only [yoeOf, startOfYoe] at hb
  exact recompose_arith ((z + 719468) / 146097)
    (z + 719468 - (z + 719468) / 146097 * 146097)
    ((z + 719468 - (z + 719468) / 146097 * 146097 -
        (z + 719468 - (z + 719468) / 146097 * 146097) / 1460 +
        (z + 719468 - (z + 719468) / 146097 * 146097) / 36524 -
        (z + 719468 - (z + 719468) / 146097 * 146097) / 146096) / 365)
    _ _ d m y z hb.1 hb.2.1 rfl (by omega) (by omega)
    rfl hd.symm hm.symm hy.symm (by omega)

/-- Decomposing an instant into local day number and ms-of-day is lossless. -/
theorem localDay_decompose (tz t : Int) :
    localDayNumber tz t * 86400000 + localMsOfDay tz t = t + tz * 60000 := by
  unfold localDayNumber localMsOfDay
  omega

/-- Re-encoding the civil triple of the local day number is the identity. -/
theorem daysFromCivil_localCivil (tz t : Int) :
    daysFromCivil (localCivil tz t).1 (localCivil tz t).2.1 (localCivil tz t).2.2 =
      localDayNumber tz t := by
  unfold localCivil
  exact daysFromCivil_civilFromDays _ _ _ _ rfl

/-- The day field of `daysFromCivil` is purely additive. -/
theorem daysFromCivil_day_add (y m d k : Int) :
    daysFromCivil y m (d + k) = daysFromCivil y m d + k := by
  simp only [daysFromCivil]
  ring

/-- Advancing the day-of-month by `k` via `setDate` moves the instant by exactly
    `k` days' worth of milliseconds (there is no daylight saving in the model). -/
theorem jsSetDate_add (tz t k : Int) :
    jsSetDate tz t (getDate tz t + k) = t + k * 86400000 := by
  unfold jsSetDate getDate
  rw [daysFromCivil_day_add, daysFromCivil_localCivil]
  have := localDay_decompose tz t
  omega

theorem digitVal_digitChar : ∀ k, k < 10 → digitVal (digitChar k) = k := by decide

theorem toNat_digitChar : ∀ k, k < 10 → (digitChar k).toNat = 48 + k := by decide

theorem valRev_natDigitsRev : ∀ fuel n, n < fuel → valRev (natDigitsRev fuel n) = n := by
  intro fuel
  induction fuel with
  | zero => intro n h; omega
  | succ fuel ih =>
      intro n h
      by_cases h10 : n < 10
      · simp only [natDigitsRev, if_pos h10, valRev]
        rw [digitVal_digitChar n h10]
        omega
      · simp only [natDigitsRev, if_neg h10, valRev]
        rw [digitVal_digitChar (n % 10) (Nat.mod_lt n (by norm_num))]
        rw [ih (n / 10) (by omega)]
        omega

theorem natDigitsRev_all_digits :
    ∀ fuel n c, c ∈ natDigitsRev fuel n → 48 ≤ c.toNat ∧ c.toNat ≤ 57 := by
  intro fuel
  induction fuel with
  | zero => intro n c h; simp [natDigitsRev] at h
  | succ fuel ih =>
      intro n c h
      by_cases h10 : n < 10
      · simp only [natDigitsRev, if_pos h10, List.mem_singleton] at h
        subst h
        rw [toNat_digitChar n h10]
        omega
      · simp only [natDigitsRev, if_neg h10, List.mem_cons] at h
        rcases h with h | h
        · subst h
          rw [toNat_digitChar (n % 10) (Nat.mod_lt n (by norm_num))]
          omega
        · exact ih (n / 10) c h

theorem natRepr_injective : Function.Injective natRepr := by
  intro a b h
  have hd : (natDigitsRev (a+1) a).reverse = (natDigitsRev (b+1) b).reverse :=
    congrArg String.data h
  have hdd : natDigitsRev (a+1) a = natDigitsRev (b+1) b := by
    have := congrArg List.reverse hd
    simpa using this
  have := congrArg valRev hdd
  rwa [valRev_natDigitsRev (a+1) a (by omega), valRev_natDigitsRev (b+1) b (by omega)] at this

theorem natRepr_all_digits {c : Char} {n : Nat} (h : c ∈ (natRepr n).data) :
    48 ≤ c.toNat ∧ c.toNat ≤ 57 := by
  have hm : c ∈ (natDigitsRev (n+1) n).reverse := h
  rw [List.mem_reverse] at hm
  exact natDigitsRev_all_digits (n+1) n c hm

theorem parseIcsDate_sample :
    parseIcsDate 0 0 "20990101T100000" = some 4070944800000 := by decide

/-! ### Properties of the expansion loop -/

/-- Guard, index and length facts of the recurrence loop: every emitted
    occurrence passed the `until` and ceiling guards, iteration indices grow
    strictly, and at most `max 1 (501 - it)` occurrences are emitted. -/
theorem expandLoop_spec :
    ∀ (fuel : Nat) (tz : Int) (freq : String) (interval : Int) (count : Option Nat)
      (untilT limit s : Int) (it : Nat) (l : List (Int × Nat)),
      expandLoop tz freq interval count untilT limit fuel s it = some l →
      (∀ p ∈ l, p.1 ≤ limit ∧ p.1 ≤ untilT ∧ it ≤ p.2) ∧
      l.Pairwise (fun p q => p.2 < q.2) ∧
      l.length ≤ max 1 (501 - it) := by
  intro fuel
  induction fuel with
  | zero =>
      intro tz freq interval count untilT limit s it l h
      simp [expandLoop] at h
  | succ fuel ih =>
      intro tz freq interval count untilT limit s it l h
      simp only [expandLoop] at h
      split at h
      · rename_i hcond
        simp only [Bool.and_eq_true, decide_eq_true_eq] at hcond
        split at h
        · rw [Option.some.injEq] at h
          subst h
          refine ⟨?_, by simp, by simp⟩
          intro p hp
          simp only [List.mem_singleton] at hp
          subst hp
          exact ⟨hcond.2, hcond.1.2, le_refl it⟩
        · rename_i next hnext
          split at h
          · rw [Option.some.injEq] at h
            subst h
            refine ⟨?_, by simp, by simp⟩
            intro p hp
            simp only [List.mem_singleton] at hp
            subst hp
            exact ⟨hcond.2, hcond.1.2, le_refl it⟩
          · rename_i hle
            split at h
            · exact absurd h (by simp)
            · rename_i rest hrest
              rw [Option.some.injEq] at h
              subst h
              obtain ⟨hmem, hpw, hlen⟩ := ih tz freq interval count untilT limit next (it+1) rest hrest
              refine ⟨?_, ?_, ?_⟩
              · intro p hp
                rcases List.mem_cons.mp hp with hp | hp
                · subst hp
                  exact ⟨hcond.2, hcond.1.2, le_refl it⟩
                · obtain ⟨h1, h2, h3⟩ := hmem p hp
                  exact ⟨h1, h2, by omega⟩
              · rw [List.pairwise_cons]
                refine ⟨fun q hq => ?_, hpw⟩
                have := (hmem q hq).2.2
                omega
              · simp only [List.length_cons]
                omega
      · rw [Option.some.injEq] at h
        subst h
        simp

/-- The iteration counter strictly increases each pass, so fuel beyond
    `501 - it` passes is never consumed: the loop always halts. -/
theorem expandLoop_isSome :
    ∀ (fuel : Nat) (tz : Int) (freq : String) (interval : Int) (count : Option Nat)
      (untilT limit s : Int) (it : Nat), 501 - it < fuel →
      (expandLoop tz freq interval count untilT limit fuel s it).isSome = true := by
  intro fuel
  induction fuel with
  | zero => intro tz freq interval count untilT limit s it h; omega
  | succ fuel ih =>
      intro tz freq interval count untilT limit s it h
      simp only [expandLoop]
      split
      · split
        · simp
        · split
          · simp
          · rename_i next hnext hle
            have hrec := ih tz freq interval count untilT limit next (it+1) (by omega)
            split
            · rename_i heq
              rw [heq] at hrec
              simp at hrec
            · simp
      · simp

/-! ### Permutation facts of the final sort -/

theorem insertEvent_perm (x : CalendarEvent) :
    ∀ l : List CalendarEvent, (insertEvent x l).Perm (x :: l) := by
  intro l
  induction l with
  | nil => simp [insertEvent]
  | cons y ys ih =>
      simp only [insertEvent]
      split
      · exact ((ih.cons y).trans (List.Perm.swap x y ys))
      · exact List.Perm.refl _

theorem sortEvents_perm : ∀ l : List CalendarEvent, (sortEvents l).Perm l := by
  intro l
  induction l with
  | nil => exact List.Perm.refl _
  | cons x xs ih => exact (insertEvent_perm x (sortEvents xs)).trans (ih.cons x)

/-! ### Injectivity of the occurrence ids -/

theorem natRepr_data_injective {a b : Nat} (h : (natRepr a).data = (natRepr b).data) :
    a = b := by
  have hdd : natDigitsRev (a+1) a = natDigitsRev (b+1) b := by
    have := congrArg List.reverse h
    simpa [natRepr] using this
  have := congrArg valRev hdd
  rwa [valRev_natDigitsRev (a+1) a (by omega), valRev_natDigitsRev (b+1) b (by omega)] at this

theorem natRepr_no_dash {c : Char} {n : Nat} (h : c ∈ (natRepr n).data) : c ≠ '-' := by
  intro hc
  have := natRepr_all_digits h
  rw [hc] at this
  simp at this

/-- Cancelling a dash-free segment before a dash determines both parts. -/
theorem dashFree_split :
    ∀ (a₁ : List Char) (a₂ r₁ r₂ : List Char), (∀ c ∈ a₁, c ≠ '-') → (∀ c ∈ a₂, c ≠ '-') →
      a₁ ++ '-' :: r₁ = a₂ ++ '-' :: r₂ → a₁ = a₂ ∧ r₁ = r₂ := by
  intro a₁
  induction a₁ with
  | nil =>
      intro a₂ r₁ r₂ h1 h2 h
      cases a₂ with
      | nil => simpa using h
      | cons c as =>
          simp only [List.nil_append, List.cons_append, List.cons.injEq] at h
          exact absurd h.1.symm (h2 c (by simp))
  | cons c as ih =>
      intro a₂ r₁ r₂ h1 h2 h
      cases a₂ with
      | nil =>
          simp only [List.cons_append, List.nil_append, List.cons.injEq] at h
          exact absurd h.1 (h1 c (by simp))
      | cons c' as' =>
          simp only [List.cons_append, List.cons.injEq] at h
          obtain ⟨hc, htl⟩ := h
          obtain ⟨ha, hr⟩ := ih as' r₁ r₂ (fun x hx => h1 x (by simp [hx]))
            (fun x hx => h2 x (by simp [hx])) htl
          exact ⟨by rw [hc, ha], hr⟩

/-- Equal occurrence ids come from the same block index and iteration index. -/
theorem mkId_inj_pair {b₁ i₁ b₂ i₂ : Nat} {t₁ t₂ : Int}
    (h : mkId b₁ i₁ t₁ = mkId b₂ i₂ t₂) : b₁ = b₂ ∧ i₁ = i₂ := by
  have hd := congrArg String.data h
  simp only [mkId, String.data_append] at hd
  simp only [List.append_assoc, List.singleton_append, List.cons_append, List.nil_append,
    List.cons.injEq, true_and] at hd
  obtain ⟨hb, hrest⟩ := dashFree_split _ _ _ _
    (fun c hc => natRepr_no_dash hc) (fun c hc => natRepr_no_dash hc) hd
  obtain ⟨hi, _⟩ := dashFree_split _ _ _ _
    (fun c hc => natRepr_no_dash hc) (fun c hc => natRepr_no_dash hc) hrest
  exact ⟨natRepr_data_injective hb, natRepr_data_injective hi⟩

/-- Occurrence pairs of a recurring block always satisfy the ceiling guard. -/
theorem expandRecurrence_mem {tz : Int} {freq : String} {interval : Int}
    {count : Option Nat} {untilT limit start : Int} {p : Int × Nat}
    (h : p ∈ expandRecurrence tz freq interval count untilT limit start) :
    p.1 ≤ limit ∧ p.1 ≤ untilT := by
  unfold expandRecurrence at h
  cases hl : expandLoop tz freq interval count untilT limit 502 start 0 with
  | none => rw [hl] at h; simp at h
  | some l =>
      rw [hl] at h
      simp only [Option.getD_some] at h
      obtain ⟨hmem, _, _⟩ := expandLoop_spec 502 tz freq interval count untilT limit start 0 l hl
      exact ⟨(hmem p h).1, (hmem p h).2.1⟩

/-- Iteration indices of a recurring block are strictly increasing. -/
theorem expandRecurrence_pairwise (tz : Int) (freq : String) (interval : Int)
    (count : Option Nat) (untilT limit start : Int) :
    (expandRecurrence tz freq interval count untilT limit start).Pairwise
      (fun p q => p.2 < q.2) := by
  unfold expandRecurrence
  cases hl : expandLoop tz freq interval count untilT limit 502 start 0 with
  | none => simp
  | some l =>
      simp only [Option.getD_some]
      exact (expandLoop_spec 502 tz freq interval count untilT limit start 0 l hl).2.1

/-- A recurring block generates at most 501 occurrence pairs. -/
theorem expandRecurrence_length (tz : Int) (freq : String) (interval : Int)
    (count : Option Nat) (untilT limit start : Int) :
    (expandRecurrence tz freq interval count untilT limit start).length ≤ 501 := by
  unfold expandRecurrence
  cases hl : expandLoop tz freq interval count untilT limit 502 start 0 with
  | none => simp
  | some l =>
      simp only [Option.getD_some]
      have := (expandLoop_spec 502 tz freq interval count untilT limit start 0 l hl).2.2
      omega

/-- Fields of an emitted occurrence, in terms of its start instant. -/
theorem addOccurrence_some_fields {tz now : Int} {b i : Nat} {title loc : String}
    {dur t : Int} {e : CalendarEvent}
    (h : addOccurrence tz now b i title loc dur t = some e) :
    e.id = mkId b i t ∧ e.date = some (isoDateString t) ∧
    e.startTime = pad2 (getHours tz t) ++ ":" ++ pad2 (getMinutes tz t) := by
  simp only [addOccurrence] at h
  split at h
  · simp at h
  · rw [Option.some.injEq] at h
    subst h
    exact ⟨rfl, rfl, rfl⟩

/-- Every event of a block is emitted by `addOccurrence` for that block index. -/
theorem blockEvents_mem {tz now limit : Int} {b : Nat} {block : List Char}
    {e : CalendarEvent} (h : e ∈ blockEvents tz now limit b block) :
    ∃ (i : Nat) (title loc : String) (dur t : Int),
      addOccurrence tz now b i title loc dur t = some e := by
  simp only [blockEvents] at h
  split at h
  · split at h
    · simp at h
    · split at h
      · rw [Option.mem_toList, Option.mem_def] at h
        exact ⟨0, _, _, _, _, h⟩
      · rw [List.mem_filterMap] at h
        obtain ⟨p, _, hp⟩ := h
        exact ⟨p.2, _, _, _, p.1, hp⟩
  · simp at h

/-- Ids within one block are pairwise distinct (they carry the iteration index). -/
theorem blockEvents_pairwise (tz now limit : Int) (b : Nat) (block : List Char) :
    (blockEvents tz now limit b block).Pairwise (fun e₁ e₂ => e₁.id ≠ e₂.id) := by
  simp only [blockEvents]
  split
  · split
    · simp
    · split
      · cases haddo : addOccurrence tz now b 0 _ _ _ _ <;> simp [haddo]
      · rw [List.pairwise_filterMap]
        refine (expandRecurrence_pairwise _ _ _ _ _ _ _).imp ?_
        intro p q hpq e₁ he₁ e₂ he₂ heq
        rw [Option.mem_def] at he₁ he₂
        have h₁ := (addOccurrence_some_fields he₁).1
        have h₂ := (addOccurrence_some_fields he₂).1
        rw [h₁, h₂] at heq
        have := (mkId_inj_pair heq).2
        omega
  · simp

/-- The enumerated block list is pairwise increasing in its indices. -/
theorem enum_pairwise_fst {α : Type} (l : List α) :
    l.enum.Pairwise (fun p q => p.1 < q.1) := by
  have h := List.pairwise_lt_range l.length
  rw [← List.enum_map_fst l] at h
  exact List.pairwise_map.mp h

/-- Every event of `parseICS` is emitted by `addOccurrence` for its block. -/
theorem parseICS_mem {tz now : Int} {ics : String} {e : CalendarEvent}
    (h : e ∈ parseICS tz now ics) :
    ∃ (b i : Nat) (title loc : String) (dur t : Int),
      addOccurrence tz now b i title loc dur t = some e := by
  simp only [parseICS] at h
  rw [(sortEvents_perm _).mem_iff] at h
  rw [List.mem_flatMap] at h
  obtain ⟨p, _, hp⟩ := h
  obtain ⟨i, title, loc, dur, t, heq⟩ := blockEvents_mem hp
  exact ⟨p.1, i, title, loc, dur, t, heq⟩

/-! ### Claim theorems -/

/-- Claim C1, amended: Prune (filterUpcomingEvents) retains exactly the events
    that lack a date (or have an empty date string) or whose end instant,
    derived from the `date` plus `endTime` fields, is defined and is at or
    after the current time; equivalently it removes exactly those whose derived
    end instant is strictly before the current time or undefined. In
    particular an event whose end instant equals the current time is retained,
    not removed. -/
theorem C1_filter_characterisation (tz now : Int) (schedule : List CalendarEvent)
    (e : CalendarEvent) :
    e ∈ filterUpcomingEvents tz now schedule ↔
      e ∈ schedule ∧ (e.date = none ∨ e.date = some "" ∨
        ∃ endMs, pruneEndInstant tz e = some endMs ∧ now ≤ endMs) := by
  unfold filterUpcomingEvents
  rw [List.mem_filter]
  constructor
  · rintro ⟨hmem, hpred⟩
    refine ⟨hmem, ?_⟩
    by_cases hd : e.date = none ∨ e.date = some ""
    · rcases hd with h | h
      · exact Or.inl h
      · exact Or.inr (Or.inl h)
    · rw [if_neg hd] at hpred
      cases hpe : pruneEndInstant tz e with
      | some endMs =>
          rw [hpe] at hpred
          simp only [decide_eq_true_eq] at hpred
          exact Or.inr (Or.inr ⟨endMs, rfl, by omega⟩)
      | none =>
          rw [hpe] at hpred
          simp at hpred
  · rintro ⟨hmem, hcond⟩
    refine ⟨hmem, ?_⟩
    by_cases hd : e.date = none ∨ e.date = some ""
    · rw [if_pos hd]
    · rw [if_neg hd]
      rcases hcond with h | h | ⟨endMs, hpe, hle⟩
      · exact absurd (Or.inl h) hd
      · exact absurd (Or.inr h) hd
      · rw [hpe]
        simp only [decide_eq_true_eq]
        omega

/-- Claim C1, counterexample: an event whose derived end instant equals the
    current instant is retained by Prune, refuting the claim that an event
    ending exactly now is removed. -/
theorem C1_counterexample :
    pruneEndInstant 0 meetingEvent = some noonInstant ∧
    filterUpcomingEvents 0 noonInstant [meetingEvent] = [meetingEvent] := by
  exact ⟨by decide, by decide⟩

/-- Claim C2, amended: a single VEVENT block never contributes more than 501
    occurrences; the iteration ceiling is off by one with respect to the claim,
    because the safety break fires only after the counter exceeds 500. -/
theorem C2_per_block_bound (tz now limit : Int) (b : Nat) (block : List Char) :
    (blockEvents tz now limit b block).length ≤ 501 := by
  simp only [blockEvents]
  split
  · split
    · simp
    · split
      · cases haddo : addOccurrence tz now b 0 _ _ _ _ <;> simp [haddo]
      · calc (List.filterMap _ _).length
            ≤ (expandRecurrence _ _ _ _ _ _ _).length := List.length_filterMap_le _ _
          _ ≤ 501 := expandRecurrence_length _ _ _ _ _ _ _
  · simp

set_option maxRecDepth 100000 in
set_option maxHeartbeats 4000000 in
/-- Claim C2, counterexample: a non-advancing rule (INTERVAL=0, no COUNT,
    permissive UNTIL) generates exactly 501 occurrences, and a block carrying
    it contributes 501 events to the result, exceeding the claimed ceiling of
    500. -/
theorem C2_counterexample :
    (expandRecurrence 0 "DAILY" 0 none 8640000000 8640000000 0).length = 501 ∧
    (blockEvents 0 (-1000000000000) 8640000000 0
      "\nSUMMARY:X\nDTSTART:19700101T000000\nRRULE:FREQ=DAILY;INTERVAL=0\n".data).length =
      501 := by
  exact ⟨by decide, by decide⟩

/-- Claim C4, amended: every token shorter than 8 characters (including the
    empty token) makes the decoder fall back to the current timestamp. Longer
    malformed tokens are not covered by the fallback and can produce an invalid
    value instead (see the counterexample). -/
theorem C4_short_token_fallback (tz now : Int) (dateStr : String)
    (h : dateStr.length < 8) : parseIcsDate tz now dateStr = some now := by
  unfold parseIcsDate
  rw [if_pos h]

/-- Claim C4, witness for the amended theorem at the token "abc". -/
theorem C4_witness :
    ("abc" : String).length < 8 ∧ parseIcsDate 0 5 "abc" = some 5 :=
  ⟨by decide, C4_short_token_fallback 0 5 "abc" (by decide)⟩

/-- Claim C4, counterexample: the malformed 8-character token "abcdefgh" does
    not yield the current timestamp; it produces an Invalid Date (`none`),
    refuting the claim for malformed tokens of length at least 8. -/
theorem C4_counterexample : parseIcsDate 0 0 "abcdefgh" = none := by decide

/-- Claim C5: no occurrence generated by the recurrence expansion starts after
    the 60-day ceiling, which equals exactly 60 days after the parse instant,
    even when UNTIL lies beyond it (the loop guard checks both bounds). -/
theorem C5_sixty_day_ceiling (tz now : Int) (freq : String) (interval : Int)
    (count : Option Nat) (untilT start : Int) :
    expansionLimitOf tz now = now + 60 * 86400000 ∧
    ∀ p ∈ expandRecurrence tz freq interval count untilT (expansionLimitOf tz now) start,
      p.1 ≤ now + 60 * 86400000 := by
  have hlim : expansionLimitOf tz now = now + 60 * 86400000 := by
    unfold expansionLimitOf
    exact jsSetDate_add tz now 60
  exact ⟨hlim, fun p hp => hlim ▸ (expandRecurrence_mem hp).1⟩

/-- Claim C5, witness: a concrete daily rule expanded against the ceiling. -/
theorem C5_witness :
    ((0 : Int), (0 : Nat)) ∈ expandRecurrence 0 "DAILY" 1 (some 1) 1000000000000
        (expansionLimitOf 0 0) 0 ∧
    ((0 : Int), (0 : Nat)).1 ≤ 0 + 60 * 86400000 :=
  ⟨by decide, (C5_sixty_day_ceiling 0 0 "DAILY" 1 (some 1) 1000000000000 0).2
      ((0 : Int), (0 : Nat)) (by decide)⟩

/-- Claim C7: the recurrence loop always halts within its 502-pass fuel for
    every rule, including non-advancing intervals and runaway counts, and
    `parseICS`'s expansion is the value of the halted loop. -/
theorem C7_expansion_terminates (tz : Int) (freq : String) (interval : Int)
    (count : Option Nat) (untilT limit start : Int) :
    ∃ l, expandLoop tz freq interval count untilT limit 502 start 0 = some l ∧
      expandRecurrence tz freq interval count untilT limit start = l := by
  have h := expandLoop_isSome 502 tz freq interval count untilT limit start 0 (by omega)
  obtain ⟨l, hl⟩ := Option.isSome_iff_exists.mp h
  refine ⟨l, hl, ?_⟩
  unfold expandRecurrence
  rw [hl]
  rfl

/-- Claim C8: Prune is idempotent; re-filtering an already filtered schedule
    with the same current time returns it unchanged. -/
theorem C8_filter_idempotent (tz now : Int) (schedule : List CalendarEvent) :
    filterUpcomingEvents tz now (filterUpcomingEvents tz now schedule) =
      filterUpcomingEvents tz now schedule := by
  unfold filterUpcomingEvents
  rw [List.filter_filter]
  apply List.filter_congr
  intro a _
  exact Bool.and_self _

/-- Claim C10: Prune returns an order-preserving subsequence of its input; no
    event is modified, duplicated or created. -/
theorem C10_filter_sublist (tz now : Int) (schedule : List CalendarEvent) :
    (filterUpcomingEvents tz now schedule).Sublist schedule := by
  unfold filterUpcomingEvents
  exact List.filter_sublist _

set_option maxRecDepth 40000 in
set_option maxHeartbeats 2000000 in
/-- Claim C3, amended: on a device at UTC offset 0, expanding the sample feed
    yields exactly the one event of the spec, with `startTime` "10:00",
    `endTime` "11:00" and `date` "2099-01-01"; in general the `date` field of
    every emitted occurrence is the UTC calendar date of its start instant
    (via `toISOString`), while `startTime` is the local wall-clock time, so the
    date is the occurrence's local calendar date only when the two coincide. -/
theorem C3_roundtrip_utc_date :
    parseICS 0 refNow sampleICS = [standupEvent] ∧
    ∀ (tz now : Int) (ics : String) (e : CalendarEvent), e ∈ parseICS tz now ics →
      ∃ t, e.date = some (isoDateString t) ∧
        e.startTime = pad2 (getHours tz t) ++ ":" ++ pad2 (getMinutes tz t) := by
  constructor
  · decide
  · intro tz now ics e he
    obtain ⟨b, i, title, loc, dur, t, heq⟩ := parseICS_mem he
    exact ⟨t, (addOccurrence_some_fields heq).2.1, (addOccurrence_some_fields heq).2.2⟩

set_option maxRecDepth 40000 in
set_option maxHeartbeats 2000000 in
/-- Claim C3, witness: the shape clause of the amended theorem applied to the
    sample feed's event. -/
theorem C3_witness :
    ∃ t, standupEvent.date = some (isoDateString t) ∧
      standupEvent.startTime = pad2 (getHours 0 t) ++ ":" ++ pad2 (getMinutes 0 t) :=
  C3_roundtrip_utc_date.2 0 refNow sampleICS standupEvent (by decide)

set_option maxRecDepth 40000 in
set_option maxHeartbeats 2000000 in
/-- Claim C3, counterexample: on a device at UTC offset +11 hours (660
    minutes), the same feed yields an event whose local start is 10:00 on
    2099-01-01 but whose `date` field is "2098-12-31" — the UTC date, not the
    local calendar date, refuting both the concrete round-trip date and the
    general "local date" clause. -/
theorem C3_counterexample :
    (parseICS 660 refNow sampleICS).map (fun e => (e.date, e.startTime, e.endTime)) =
      [(some "2098-12-31", "10:00", "11:00")] ∧
    localCivil 660 (jsMakeDate 660 2099 0 1 10 0 0) = (2099, 1, 1) := by
  exact ⟨by decide, by decide⟩

/-- First-match decomposition of `List.find?`. -/
theorem find_first_decomp {α : Type} (p : α → Bool) :
    ∀ (l : List α) (a : α), l.find? p = some a →
      ∃ pre post, l = pre ++ a :: post ∧ ∀ x ∈ pre, p x = false := by
  intro l
  induction l with
  | nil => intro a h; simp at h
  | cons x xs ih =>
      intro a h
      rw [List.find?_cons] at h
      cases hpx : p x with
      | true =>
          rw [hpx] at h
          rw [Option.some.injEq] at h
          subst h
          exact ⟨[], xs, rfl, by simp⟩
      | false =>
          rw [hpx] at h
          obtain ⟨pre, post, hl, hpre⟩ := ih a h
          refine ⟨x :: pre, post, by rw [hl]; rfl, ?_⟩
          intro y hy
          rcases List.mem_cons.mp hy with hy | hy
          · rw [hy]; exact hpx
          · exact hpre y hy

/-- The lookup predicate of `findActiveEvent` agrees with `isActiveAt`. -/
theorem findActiveEvent_eq_find (tz now : Int) (schedule : List CalendarEvent) :
    findActiveEvent tz now schedule = schedule.find? (isActiveAt tz now) := by
  simp only [findActiveEvent]
  congr 1
  funext e
  unfold isActiveAt
  by_cases hd : e.date = some (isoDateString now)
  · rw [if_neg (by simp [hd])]
    simp [hd]
  · rw [if_pos hd]
    simp [hd]

/-- Claim C6: Find-active returns the first event, in the sequence's existing
    order, whose date equals the current date string and whose
    `[startTime, endTime]` window contains the current time with both
    endpoints included (at minute granularity, as the code compares times);
    `none` is returned exactly when no event qualifies; and at a shared
    boundary (10:00 between a 09:00-10:00 and a 10:00-11:00 event) the
    earliest-listed event wins. -/
theorem C6_find_active_first (tz now : Int) (schedule : List CalendarEvent) :
    (findActiveEvent tz now schedule = none ↔
        ∀ e ∈ schedule, isActiveAt tz now e = false) ∧
    (∀ e, findActiveEvent tz now schedule = some e →
        isActiveAt tz now e = true ∧
        ∃ pre post, schedule = pre ++ e :: post ∧
          ∀ x ∈ pre, isActiveAt tz now x = false) ∧
    findActiveEvent 0 tenOClock [morningEventA, morningEventB] = some morningEventA := by
  refine ⟨?_, ?_, by decide⟩
  · rw [findActiveEvent_eq_find, List.find?_eq_none]
    constructor
    · intro h e he
      have := h e he
      simpa using this
    · intro h e he
      simp [h e he]
  · intro e he
    rw [findActiveEvent_eq_find] at he
    exact ⟨List.find?_some he, find_first_decomp _ _ _ he⟩

/-- Claim C6, witness: the first-match clause applied at the shared boundary. -/
theorem C6_witness :
    isActiveAt 0 tenOClock morningEventA = true ∧
    ∃ pre post, [morningEventA, morningEventB] = pre ++ morningEventA :: post ∧
      ∀ x ∈ pre, isActiveAt 0 tenOClock x = false :=
  (C6_find_active_first 0 tenOClock [morningEventA, morningEventB]).2.1
    morningEventA (by decide)

/-- Claim C9: the ids of all events in the expanded output of `parseICS` are
    pairwise distinct: the id encodes the block index and the iteration index,
    iteration indices grow strictly inside a block, block indices differ across
    blocks, and the decimal encoding of the id is uniquely decodable. -/
theorem C9_ids_pairwise_distinct (tz now : Int) (ics : String) :
    (parseICS tz now ics).Pairwise (fun e₁ e₂ => e₁.id ≠ e₂.id) := by
  unfold parseICS
  apply (List.Perm.pairwise_iff (fun h => Ne.symm h) (sortEvents_perm _)).mpr
  rw [List.pairwise_flatMap]
  constructor
  · intro p _
    exact blockEvents_pairwise tz now _ p.1 p.2
  · refine (enum_pairwise_fst _).imp ?_
    intro p q hpq e₁ he₁ e₂ he₂ heq
    obtain ⟨i₁, t₁str, l₁str, d₁, t₁, h₁⟩ := blockEvents_mem he₁
    obtain ⟨i₂, t₂str, l₂str, d₂, t₂, h₂⟩ := blockEvents_mem he₂
    rw [(addOccurrence_some_fields h₁).1, (addOccurrence_some_fields h₂).1] at heq
    have := (mkId_inj_pair heq).1
    omega

end TranscribeCal

